import Mathlib

/-!
Verification of the ingestion-and-extraction pipeline of the
`instagram-place-to-maps` repository.

The definitions below are shallow embeddings of the Python source:

* `app/bot/handlers.py` — message dedup registry (`_processing_messages`,
  `_processed_message_ids`, `_MAX_PROCESSED_IDS`, the admission block at the
  top of `message_handler` and the `finally` release), URL classification
  (`_get_url_type` and the class-level URL patterns), the image forwarding
  bound (`image_paths[:5]`), and the fan-out/fan-in place search
  (`asyncio.gather` over `search_place_with_info`).
* `app/services/place_extractor.py` — `_parse_response` (fence stripping,
  brace-span location, JSON repair, strict parse, re-anchor retry, and the
  mapping to `ExtractionResult`), with the enclosing `extract` exception
  handler folded into the error branches.
* `app/services/downloader.py` — `_download_thread_images` (10-image cap),
  `_download_post_sync` (single image / carousel paths), `_find_thread_node`
  (depth-bounded recursive search over a possibly cyclic object graph), and
  `_extract_from_thread_node` (same-author filtering and caption merging).
-/

/-! ### Dedup registry (`app/bot/handlers.py`)

`_processing_messages` and `_processed_message_ids` are class-level sets of
Telegram message ids (Python ints; ids are modelled as naturals, matching the
non-negative ids the transport delivers). `_MAX_PROCESSED_IDS = 1000`.
-/

def MAX_PROCESSED_IDS : ℕ := 1000

/-- The two membership sets of the registry. -/
structure RegState where
  processing : Finset ℕ
  processed : Finset ℕ
  deriving DecidableEq

/-- The three observable outcomes of the admission block: `proceed` falls
through into processing, `alreadyProcessed` is the early return guarded by
`_processed_message_ids`, `alreadyProcessing` the early return guarded by
`_processing_messages`. -/
inductive AdmissionDecision where
  | proceed
  | alreadyProcessing
  | alreadyProcessed
  deriving DecidableEq, Repr

/-- Eviction step (handlers.py lines 683-686): when the completed set exceeds
`_MAX_PROCESSED_IDS`, sort the ids and keep the upper half
(`ids_list[self._MAX_PROCESSED_IDS // 2:]`). -/
def evictOldest (s : Finset ℕ) : Finset ℕ :=
  if MAX_PROCESSED_IDS < s.card then
    ((s.sort (· ≤ ·)).drop (MAX_PROCESSED_IDS / 2)).toFinset
  else s

/-- Admission block at the top of `message_handler` (handlers.py lines
669-686): check the completed set first, then the in-flight set, otherwise
mark the id in both sets and run the eviction step on the completed set. -/
def admission (st : RegState) (id : ℕ) : AdmissionDecision × RegState :=
  if id ∈ st.processed then (.alreadyProcessed, st)
  else if id ∈ st.processing then (.alreadyProcessing, st)
  else
    (.proceed,
      { processing := insert id st.processing
        processed := evictOldest (insert id st.processed) })

/-- The `finally` block (handlers.py lines 1040-1043):
`self._processing_messages.discard(message_id)` — the id stays in the
completed set. -/
def release (st : RegState) (id : ℕ) : RegState :=
  { st with processing := st.processing.erase id }

/-- The registry at process start: both sets empty. -/
def regInit : RegState := ⟨∅, ∅⟩

/-! ### JSON repair (`app/services/place_extractor.py`, `_parse_response`)

The repair step is the pair of substitutions at lines 205-210:
`re.sub(r',\s*([}\]])', r'\1', json_str)` followed by
`re.sub(r'//.*?(?=\n|$)', '', json_str)`.  Both are modelled as left-to-right
single-pass scanners, exactly as `re.sub` processes non-overlapping matches.
The scanners carry a fuel argument (initialised to the input length, which
always suffices since every step consumes at least one character) so that
they are structurally recursive and evaluate inside the kernel. -/

/-- The characters matched by the regex class `\s` on the ASCII range. -/
def isPyWs (c : Char) : Bool :=
  c = ' ' || c = '\t' || c = '\n' || c = '\r' || c = '\x0b' || c = '\x0c'

/-- Lookahead for `\s*([}\]])`: consume the maximal whitespace run and require
a closing bracket right after it.  (Shorter runs of `\s*` end at a whitespace
character, which is not a bracket, so greedy matching with backtracking is
equivalent to this deterministic scan.)  Returns the bracket and the rest of
the input after it. -/
def matchWsBracket : List Char → Option (Char × List Char)
  | [] => none
  | c :: rest =>
    if isPyWs c then matchWsBracket rest
    else if c = '\x7d' ∨ c = ']' then some (c, rest)
    else none

/-- Single left-to-right pass of `re.sub(r',\s*([}\]])', r'\1', _)`: at a
comma whose lookahead matches, the comma and the whitespace are dropped, the
bracket is emitted, and scanning resumes after the bracket (replacement text
is not rescanned).  The fuel-zero fallback returns the input unchanged and is
unreachable when the scanner starts with fuel equal to the input length. -/
def stripTrailingCommasF : ℕ → List Char → List Char
  | _, [] => []
  | 0, l => l
  | fuel + 1, c :: rest =>
    if c = ',' then
      match matchWsBracket rest with
      | some (b, rest') => b :: stripTrailingCommasF fuel rest'
      | none => c :: stripTrailingCommasF fuel rest
    else c :: stripTrailingCommasF fuel rest

def stripTrailingCommas (l : List Char) : List Char :=
  stripTrailingCommasF l.length l

/-- Advance to the next newline (the lookahead `(?=\n|$)` keeps the newline
itself in the text; `.` does not match `\n`). -/
def dropToNewline : List Char → List Char
  | [] => []
  | c :: rest => if c = '\n' then c :: rest else dropToNewline rest

/-- Single left-to-right pass of `re.sub(r'//.*?(?=\n|$)', '', _)`: a `//`
and everything up to (but excluding) the next newline is dropped. -/
def stripLineCommentsF : ℕ → List Char → List Char
  | _, [] => []
  | 0, l => l
  | fuel + 1, c :: rest =>
    if c = '/' && rest.head? = some '/' then
      stripLineCommentsF fuel (dropToNewline rest.tail)
    else c :: stripLineCommentsF fuel rest

def stripLineComments (l : List Char) : List Char :=
  stripLineCommentsF l.length l

/-- The full repair transformation of `_parse_response` (lines 205-210):
trailing-comma removal followed by line-comment removal. -/
def repairJson (s : String) : String :=
  String.mk (stripLineComments (stripTrailingCommas s.data))

/-! ### URL classification (`app/bot/handlers.py`, `_get_url_type`)

`_get_url_type` matches the URL against `INSTAGRAM_REEL_PATTERN`
(`https?://(?:www\.)?instagram\.com/(?:reel|reels|tv)/([A-Za-z0-9_-]+)`),
then `INSTAGRAM_POST_PATTERN` (`.../p/...`), then `INSTAGRAM_SHARE_PATTERN`
(`.../share/...`), first match wins, otherwise `"unknown"`.  `re.match`
anchors at the start and only needs a prefix match.  The optional groups
`https?` and `(?:www\.)?` are deterministic (`s` is never `:`, `w` is never
`i`), so the regexes are modelled by a deterministic prefix scan. -/

/-- A character of the class `[A-Za-z0-9_-]`. -/
def isUrlBodyChar (c : Char) : Bool :=
  ('A' ≤ c && c ≤ 'Z') || ('a' ≤ c && c ≤ 'z') || ('0' ≤ c && c ≤ '9') ||
    c = '_' || c = '-'

/-- Strip a literal prefix from the input, or fail. -/
def dropLit : List Char → List Char → Option (List Char)
  | [], l => some l
  | _ :: _, [] => none
  | p :: ps, c :: cs => if c = p then dropLit ps cs else none

/-- Consume `https?://(?:www\.)?instagram\.com/` from the front of the URL,
returning the remainder. -/
def afterInstagramHost (url : String) : Option (List Char) := do
  let r ← dropLit "http".data url.data
  let r := if r.head? = some 's' then r.tail else r
  let r ← dropLit "://".data r
  let r := if "www.".data.isPrefixOf r then r.drop 4 else r
  dropLit "instagram.com/".data r

/-- Match `seg` followed by `/([A-Za-z0-9_-]+)` as a prefix of the
remainder (one body character satisfies the `+`, since `re.match` is a
prefix match). -/
def segMatch (seg : String) (r : List Char) : Bool :=
  match dropLit seg.data r with
  | some ('/' :: c :: _) => isUrlBodyChar c
  | _ => false

/-- `INSTAGRAM_REEL_PATTERN.match(url)` (handlers.py lines 76-78). -/
def matchReelPattern (url : String) : Bool :=
  match afterInstagramHost url with
  | some r => segMatch "reel" r || segMatch "reels" r || segMatch "tv" r
  | none => false

/-- `INSTAGRAM_POST_PATTERN.match(url)` (handlers.py lines 81-83). -/
def matchPostPattern (url : String) : Bool :=
  match afterInstagramHost url with
  | some r => segMatch "p" r
  | none => false

/-- `INSTAGRAM_SHARE_PATTERN.match(url)` (handlers.py lines 86-88). -/
def matchSharePattern (url : String) : Bool :=
  match afterInstagramHost url with
  | some r => segMatch "share" r
  | none => false

/-- `_get_url_type` (handlers.py lines 114-130). -/
def getUrlType (url : String) : String :=
  if matchReelPattern url then "reel"
  else if matchPostPattern url then "post"
  else if matchSharePattern url then "share"
  else "unknown"

/-! ### Image download bounds (`downloader.py`, `handlers.py`)

Claim C4 concerns three download paths and the forwarding bound:
`_download_thread_images` caps at 10 (`image_urls[:10]`), the single-image
branch of `_download_post_sync` produces one path, the carousel branch
downloads every non-video sidecar node (no cap), and `message_handler`
forwards `post_result.image_paths[:5]` to the image analyser. -/

/-- One sidecar node of an Instagram carousel post, as instaloader exposes it
to `_download_post_sync`: a video flag and a display URL. -/
structure SidecarNode where
  is_video : Bool
  display_url : String
  deriving DecidableEq, Repr

/-- Carousel branch of `_download_post_sync` (downloader.py lines 520-535):
every non-video sidecar node is downloaded, in order, with no cap. -/
def downloadCarouselImages (nodes : List SidecarNode) : List String :=
  (nodes.filter (fun n => !n.is_video)).map (fun n => n.display_url)

/-- Single-image branch of `_download_post_sync` (lines 537-546). -/
def downloadSingleImage (url : String) : List String := [url]

/-- `_download_thread_images` (downloader.py line 1255): at most the first
10 URLs are attempted (`image_urls[:10]`); a download that throws is skipped,
so `ok` models which CDN fetches succeed. -/
def downloadThreadImages (ok : String → Bool) (imageUrls : List String) :
    List String :=
  (imageUrls.take 10).filter ok

/-- Forwarding to the image-analysis stage (handlers.py lines 738 and 782):
`images_to_analyze = post_result.image_paths[:5]`. -/
def imagesToAnalyze (imagePaths : List String) : List String :=
  imagePaths.take 5

/-! ### Thread aggregation author filter
(`downloader.py`, `_extract_from_thread_node`)

One thread item is reduced to the fields the filter loop reads: the extracted
author username (`item["post"]["user"]["username"]`, defaulting to `""` when
the user object is missing or not a dict) and the optional caption text
(`_extract_item_caption`, which returns `None` rather than an empty
string). -/

structure ThreadItem where
  username : String
  caption : Option String
  deriving DecidableEq, Repr

/-- The canonical author (downloader.py lines 827-831): the first item's
username. -/
def authorUsername (items : List ThreadItem) : String :=
  ((items.head?).map (fun it => it.username)).getD ""

/-- The filter loop (downloader.py lines 833-842): keep exactly the items
whose username equals the first item's, in order. -/
def authorItems (items : List ThreadItem) : List ThreadItem :=
  items.filter (fun it => it.username == authorUsername items)

/-- Caption fragments (downloader.py lines 861-872): only retained items
contribute caption parts, in order. -/
def captionParts (items : List ThreadItem) : List String :=
  (authorItems items).filterMap (fun it => it.caption)

/-! ### Fan-out/fan-in place search (`handlers.py`, lines 848-865)

`message_handler` builds one task per extracted place
(`search_place_with_info`), issues them all, and joins with
`asyncio.gather(*search_tasks)`, which returns results in argument order
regardless of completion order.  The join is modelled operationally: each
task writes its `(place_info, place_result)` pair into its own slot when it
completes, completions are replayed in an arbitrary order, and the joined
sequence reads the slots in task-index order. -/

/-- One extracted place (`PlaceInfo` dataclass in
`app/services/place_extractor.py`, lines 18-39).  Absent optional fields are
`none`; Python's falsy `""` is handled where truthiness matters. -/
structure PlaceInfo where
  confidence : String := "low"
  name : Option String := none
  name_en : Option String := none
  city : Option String := none
  country : Option String := none
  address : Option String := none
  place_type : List String := []
  highlights : List String := []
  price_range : Option String := none
  recommendation : Option String := none
  tags : List String := []
  search_keywords : List String := []
  deriving DecidableEq, Repr

/-- Python truthiness of an optional string: `None` and `""` are falsy. -/
def truthyStr : Option String → Bool
  | some s => s ≠ ""
  | none => false

/-- Query composition of `search_place_with_info` (handlers.py lines
851-853): first search keyword, falling back to the name; overridden by
`"{name} {city}"` when both city and name are truthy. -/
def searchQuery (p : PlaceInfo) : Option String :=
  let q := match p.search_keywords with
    | k :: _ => some k
    | [] => p.name
  if truthyStr p.city && truthyStr p.name then
    some (p.name.getD "" ++ " " ++ p.city.getD "")
  else q

/-- Replay task completions in the given order: completion of task `i`
writes the result for candidate `i` into slot `i`. -/
def fillSlots {α β : Type} (f : α → β) (cands : List α) :
    List ℕ → (ℕ → Option β) → (ℕ → Option β)
  | [], tbl => tbl
  | i :: rest, tbl =>
      fillSlots f cands rest
        (fun j => if j = i then (cands[i]?).map f else tbl j)

/-- The joined sequence `asyncio.gather` returns: slots read in task-index
order after all completions ran. -/
def gatherJoin {α β : Type} (f : α → β) (cands : List α)
    (order : List ℕ) : List (Option β) :=
  (List.range cands.length).map (fillSlots f cands order (fun _ => none))

/-! ### Depth-bounded thread-node search (`downloader.py`,
`_find_thread_node`, lines 775-804)

The Python function walks an arbitrary parsed object graph.  To let the
claim quantify over cyclic and self-referential inputs, the object graph is
modelled explicitly: a store maps addresses to nodes, and dict values and
list elements are addresses, so a node can reach itself.  The `depth`
parameter of the source (entry check `if depth > 20: return None`, recursive
calls at `depth + 1`) is translated to the structural fuel `21 - depth`,
which is zero exactly when the entry check fires.  `FindRes.err` models the
`AttributeError` Python raises when `items[0]` is not a dict. -/

/-- A Python object: dict (key/address bindings in insertion order), list,
string, int, bool, or None. -/
inductive PyObj where
  | dict (kvs : List (String × ℕ))
  | plist (elems : List ℕ)
  | pstr (s : String)
  | pint (n : ℤ)
  | pbool (b : Bool)
  | pnone

/-- The heap: every address holds an object; cycles are arbitrary. -/
abbrev Store := ℕ → PyObj

/-- Result of the search: a found node address, no result, or a raised
exception. -/
inductive FindRes where
  | found (a : ℕ)
  | notFound
  | err
  deriving DecidableEq, Repr

/-- Python `d.get(k)` / `k in d` on the modelled dict. -/
def pyGet (kvs : List (String × ℕ)) (k : String) : Option ℕ :=
  (kvs.find? (fun p => p.1 == k)).map (fun p => p.2)

/-- The `thread_items` check at the top of `_find_thread_node` (lines
786-791): the node qualifies when it holds a non-empty `thread_items` list
whose first element is a dict whose `post` value is a dict containing
`media_type`.  A non-dict first element makes `items[0].get(...)` raise. -/
def checkThreadNode (σ : Store) (a : ℕ) (kvs : List (String × ℕ)) : FindRes :=
  match pyGet kvs "thread_items" with
  | none => .notFound
  | some ia =>
    match σ ia with
    | .plist (e :: _) =>
      match σ e with
      | .dict d1 =>
        match pyGet d1 "post" with
        | some pa =>
          match σ pa with
          | .dict d2 =>
              if (pyGet d2 "media_type").isSome then .found a else .notFound
          | _ => .notFound
        | none => .notFound
      | _ => .err
    | _ => .notFound

/-- The recursion of `_find_thread_node` over the remaining fuel
`21 - depth`: a dict is searched through every value (in insertion order), a
list through at most its first 10 elements; the first found result wins and
an exception propagates immediately. -/
def findAux (σ : Store) : ℕ → ℕ → FindRes
  | 0, _ => .notFound
  | fuel + 1, a =>
    let step := fun (acc : FindRes) (x : ℕ) =>
      match acc with
      | .notFound => findAux σ fuel x
      | other => other
    match σ a with
    | .dict kvs =>
      match checkThreadNode σ a kvs with
      | .found x => .found x
      | .err => .err
      | .notFound => (kvs.map (fun p => p.2)).foldl step .notFound
    | .plist elems => (elems.take 10).foldl step .notFound
    | _ => .notFound

/-- `_find_thread_node(obj, depth)` on the modelled object graph. -/
def findThreadNode (σ : Store) (a : ℕ) (depth : ℕ) : FindRes :=
  findAux σ (21 - depth) a

/-- A self-referential store: address 0 holds a dict whose only value is
address 0 itself. -/
def cyclicStore : Store := fun _ => PyObj.dict [("self", 0)]

/-! ### Strict JSON parsing (`json.loads` as used by `_parse_response`)

`_parse_response` calls `json.loads` on the repaired span.  The parser below
models the strict JSON grammar Python uses: no trailing commas, no comments,
`"Expecting value"` errors where Python's scanner raises them, duplicate
object keys resolved last-wins, numbers matched greedily with optional
fraction/exponent groups.  (Python's optional NaN/Infinity literals and
surrogate-pair recombination in `\uXXXX` escapes are outside the inputs this
pipeline exercises and are not modelled.)  The parser is structurally
recursive on a fuel argument initialised to twice the input length, which
always suffices because every two steps consume at least one character. -/

inductive Json where
  | jnull
  | jbool (b : Bool)
  | jnum (m : ℤ) (e10 : ℤ)
  | jstr (s : String)
  | jarr (elems : List Json)
  | jobj (fields : List (String × Json))

/-- JSON whitespace (`' '`, `'\t'`, `'\n'`, `'\r'`). -/
def skipJsonWs : List Char → List Char
  | [] => []
  | c :: rest =>
    if c = ' ' ∨ c = '\t' ∨ c = '\n' ∨ c = '\r' then skipJsonWs rest
    else c :: rest

/-- Hexadecimal digit value. -/
def hexVal (c : Char) : Option ℕ :=
  if '0' ≤ c ∧ c ≤ '9' then some (c.toNat - 48)
  else if 'a' ≤ c ∧ c ≤ 'f' then some (c.toNat - 87)
  else if 'A' ≤ c ∧ c ≤ 'F' then some (c.toNat - 55)
  else none

/-- Scan a JSON string body (after the opening quote): escape sequences,
rejection of unescaped control characters, terminating quote. -/
def parseJStringAux (acc : List Char) : List Char →
    Except String (String × List Char)
  | [] => .error "Unterminated string"
  | c :: rest =>
    if c = '"' then .ok (String.mk acc.reverse, rest)
    else if c = '\\' then
      match rest with
      | [] => .error "Unterminated string"
      | e :: rest' =>
        if e = '"' then parseJStringAux ('"' :: acc) rest'
        else if e = '\\' then parseJStringAux ('\\' :: acc) rest'
        else if e = '/' then parseJStringAux ('/' :: acc) rest'
        else if e = 'b' then parseJStringAux ('\x08' :: acc) rest'
        else if e = 'f' then parseJStringAux ('\x0c' :: acc) rest'
        else if e = 'n' then parseJStringAux ('\n' :: acc) rest'
        else if e = 'r' then parseJStringAux ('\r' :: acc) rest'
        else if e = 't' then parseJStringAux ('\t' :: acc) rest'
        else if e = 'u' then
          match rest' with
          | h1 :: h2 :: h3 :: h4 :: rest2 =>
            match hexVal h1, hexVal h2, hexVal h3, hexVal h4 with
            | some a, some b, some c2, some d =>
                parseJStringAux
                  (Char.ofNat (((a * 16 + b) * 16 + c2) * 16 + d) :: acc) rest2
            | _, _, _, _ => .error "Invalid uXXXX escape"
          | _ => .error "Invalid uXXXX escape"
        else .error "Invalid escape"
    else if c.toNat < 32 then .error "Invalid control character"
    else parseJStringAux (c :: acc) rest

/-- Maximal run of decimal digits. -/
def takeDigits : List Char → (List Char × List Char)
  | [] => ([], [])
  | c :: rest =>
    if c.isDigit then
      let (d, r) := takeDigits rest
      (c :: d, r)
    else ([], c :: rest)

def digitsToNat (l : List Char) : ℕ :=
  l.foldl (fun acc c => acc * 10 + (c.toNat - 48)) 0

/-- Optional fraction group `(\.\d+)?`: with no digit after the dot the group
fails and nothing is consumed (regex backtracking). -/
def parseFrac : List Char → (List Char × List Char)
  | '.' :: r =>
    match takeDigits r with
    | ([], _) => ([], '.' :: r)
    | (d, r') => (d, r')
  | l => ([], l)

/-- Optional exponent group `([eE][-+]?\d+)?`, likewise backtracking. -/
def parseExp : List Char → (Bool × List Char × List Char)
  | [] => (false, [], [])
  | c :: r =>
    if c = 'e' ∨ c = 'E' then
      let (sgn, r1) := match r with
        | '+' :: r' => (false, r')
        | '-' :: r' => (true, r')
        | _ => (false, r)
      match takeDigits r1 with
      | ([], _) => (false, [], c :: r)
      | (d, r') => (sgn, d, r')
    else (false, [], c :: r)

/-- Assemble the numeric value `m * 10^e10` from integer digits, fraction
digits and exponent. -/
def finishNumber (neg : Bool) (ip r : List Char) : Json × List Char :=
  let (fp, r2) := parseFrac r
  let (eneg, ed, r3) := parseExp r2
  let mant : ℕ := digitsToNat (ip ++ fp)
  let m : ℤ := if neg then -(mant : ℤ) else (mant : ℤ)
  let ex : ℤ :=
    (if eneg then -(digitsToNat ed : ℤ) else (digitsToNat ed : ℤ)) -
      (fp.length : ℤ)
  (Json.jnum m ex, r3)

/-- Number grammar `-?(0|[1-9]\d*)(\.\d+)?([eE][-+]?\d+)?`. -/
def parseNumber (l : List Char) : Except String (Json × List Char) :=
  let p := match l with
    | '-' :: r => (true, r)
    | _ => (false, l)
  match p.2 with
  | [] => .error "Expecting value"
  | c :: rest =>
    if c = '0' then .ok (finishNumber p.1 ['0'] rest)
    else if '1' ≤ c ∧ c ≤ '9' then
      match takeDigits rest with
      | (d, r) => .ok (finishNumber p.1 (c :: d) r)
    else .error "Expecting value"

/-- The parser's work items: a value, the remaining elements of an array, or
the remaining members of an object. -/
inductive PTask where
  | pvalue
  | pelems (acc : List Json)
  | pmembers (acc : List (String × Json))

/-- Recursive-descent JSON parser, structural on fuel. -/
def parseJ : ℕ → PTask → List Char → Except String (Json × List Char)
  | 0, _, _ => .error "Input budget exhausted"
  | fuel + 1, .pvalue, l =>
    match skipJsonWs l with
    | [] => .error "Expecting value"
    | c :: rest =>
      if c = '\x7b' then
        match skipJsonWs rest with
        | '\x7d' :: r' => .ok (.jobj [], r')
        | r' => parseJ fuel (.pmembers []) r'
      else if c = '[' then
        match skipJsonWs rest with
        | ']' :: r' => .ok (.jarr [], r')
        | r' => parseJ fuel (.pelems []) r'
      else if c = '"' then
        match parseJStringAux [] rest with
        | .ok (s, r') => .ok (.jstr s, r')
        | .error e => .error e
      else if c = 't' then
        match dropLit "rue".data rest with
        | some r' => .ok (.jbool true, r')
        | none => .error "Expecting value"
      else if c = 'f' then
        match dropLit "alse".data rest with
        | some r' => .ok (.jbool false, r')
        | none => .error "Expecting value"
      else if c = 'n' then
        match dropLit "ull".data rest with
        | some r' => .ok (.jnull, r')
        | none => .error "Expecting value"
      else if c = '-' ∨ c.isDigit then parseNumber (c :: rest)
      else .error "Expecting value"
  | fuel + 1, .pelems acc, l =>
    match parseJ fuel .pvalue l with
    | .error e => .error e
    | .ok (v, r) =>
      match skipJsonWs r with
      | ',' :: r' => parseJ fuel (.pelems (acc ++ [v])) r'
      | ']' :: r' => .ok (.jarr (acc ++ [v]), r')
      | _ => .error "Expecting comma delimiter"
  | fuel + 1, .pmembers acc, l =>
    match skipJsonWs l with
    | '"' :: r =>
      match parseJStringAux [] r with
      | .error e => .error e
      | .ok (k, r1) =>
        match skipJsonWs r1 with
        | ':' :: r2 =>
          match parseJ fuel .pvalue r2 with
          | .error e => .error e
          | .ok (v, r3) =>
            match skipJsonWs r3 with
            | ',' :: r4 => parseJ fuel (.pmembers (acc ++ [(k, v)])) r4
            | '\x7d' :: r4 => .ok (.jobj (acc ++ [(k, v)]), r4)
            | _ => .error "Expecting comma delimiter"
        | _ => .error "Expecting colon delimiter"
    | _ => .error "Expecting property name enclosed in double quotes"

/-- `json.loads`: parse one value and require only whitespace after it. -/
def jsonLoads (s : String) : Except String Json :=
  match parseJ (2 * s.length + 4) .pvalue s.data with
  | .error e => .error e
  | .ok (v, rest) =>
    match skipJsonWs rest with
    | [] => .ok v
    | _ => .error "Extra data"

/-! ### The `_parse_response` pipeline (`place_extractor.py`, lines 186-276)

The stages: strip fenced code-block markers, locate the widest `{...}` span,
repair it (`repairJson` above), strict parse; on failure re-anchor at the
first `\{\s*"found"` occurrence, pad closing braces, retry once; map the
parsed object to an `ExtractionResult`.  The enclosing `extract` method
catches every exception and turns it into `ExtractionResult(found=False,
notes=str(e))`; that catch is folded into the error branches below, so the
model is total.  Where Python stores a non-string JSON value into a
string-typed field, the model stores a rendering of it (`jsonRender`); no
claim depends on those values. -/

/-- Maximal run of Python `\s` characters dropped from the front. -/
def dropPyWs : List Char → List Char
  | [] => []
  | c :: rest => if isPyWs c then dropPyWs rest else c :: rest

/-- Global `re.sub(pat + r'\s*', '', text)` for a literal `pat`: scan left to
right, drop each occurrence of the literal together with the following
whitespace run.  Fuel-structural; fuel starts at the input length. -/
def removeLitWsF (pat : List Char) : ℕ → List Char → List Char
  | _, [] => []
  | 0, l => l
  | fuel + 1, c :: rest =>
    match dropLit pat (c :: rest) with
    | some r => removeLitWsF pat fuel (dropPyWs r)
    | none => c :: removeLitWsF pat fuel rest

/-- `re.sub(r'```\s*$', '', text)`: if the text, after its trailing
whitespace, ends in a backquote fence, remove the fence and the trailing
whitespace; otherwise leave the text unchanged. -/
def stripTrailingFence (l : List Char) : List Char :=
  let rtrim := dropPyWs l.reverse
  if ('`' :: '`' :: '`' :: []).isPrefixOf rtrim then (rtrim.drop 3).reverse
  else l

/-- Python's `pat in text` substring test. -/
def containsPat (pat : List Char) : List Char → Bool
  | [] => pat.isPrefixOf []
  | c :: rest => pat.isPrefixOf (c :: rest) || containsPat pat rest

/-- The fence-stripping preprocessing (place_extractor.py lines 189-195). -/
def stripFences (s : String) : String :=
  if containsPat ('`' :: '`' :: '`' :: 'j' :: 's' :: 'o' :: 'n' :: []) s.data
  then
    String.mk (stripTrailingFence
      (removeLitWsF ('`' :: '`' :: '`' :: 'j' :: 's' :: 'o' :: 'n' :: [])
        s.data.length s.data))
  else if containsPat ('`' :: '`' :: '`' :: []) s.data then
    String.mk (removeLitWsF ('`' :: '`' :: '`' :: []) s.data.length s.data)
  else s

/-- `re.search(r'\{[\s\S]*\}', cleaned)` (line 198): the span from the first
opening brace to the last closing brace, when the latter comes after the
former. -/
def locateBraceSpan (l : List Char) : Option (List Char) :=
  let d := l.dropWhile (fun c => c ≠ '\x7b')
  let t := (d.reverse.dropWhile (fun c => c ≠ '\x7d')).reverse
  if t.isEmpty then none else some t

/-- Does `\{\s*"found"` match at the head of the text? -/
def matchesFoundAt (l : List Char) : Bool :=
  match l with
  | '\x7b' :: r => ('"' :: 'f' :: 'o' :: 'u' :: 'n' :: 'd' :: '"' :: []).isPrefixOf (dropPyWs r)
  | _ => false

/-- `re.search(r'\{\s*"found"[\s\S]*', json_str)` (line 220): the suffix
starting at the first position where the pattern matches. -/
def reanchorFound : List Char → Option (List Char)
  | [] => none
  | c :: rest =>
    if matchesFoundAt (c :: rest) then some (c :: rest)
    else reanchorFound rest

/-- Brace balancing (lines 223-227): append `open - close` closing braces
when the count of opening braces exceeds the closing ones. -/
def padClosingBraces (s : String) : String :=
  String.mk (s.data ++
    List.replicate (s.data.count '\x7b' - s.data.count '\x7d') '\x7d')

/-- Python `d.get(k)` on a parsed JSON object; later duplicate keys win, as
in the dict `json.loads` builds. -/
def jget (fields : List (String × Json)) (k : String) : Option Json :=
  fields.foldl (fun acc p => if p.1 == k then some p.2 else acc) none

/-- Python truthiness of a parsed JSON value. -/
def jtruthy : Json → Bool
  | .jnull => false
  | .jbool b => b
  | .jnum m _ => m != 0
  | .jstr s => s != ""
  | .jarr l => !l.isEmpty
  | .jobj l => !l.isEmpty

/-- A string-typed field receiving a JSON value.  Python stores the raw
value unchanged even when it is not a string; the model keeps strings
verbatim, renders scalars, and marks containers.  No claim reads a
string-typed field that received a non-string value. -/
def jsonToStr : Json → String
  | .jstr s => s
  | .jnull => "None"
  | .jbool true => "True"
  | .jbool false => "False"
  | .jnum m e => toString m ++ "e" ++ toString e
  | .jarr _ => "<list>"
  | .jobj _ => "<dict>"

/-- An optional string field: absent key and JSON `null` both become `None`
in Python. -/
def jsonToOptStr : Option Json → Option String
  | none => none
  | some .jnull => none
  | some j => some (jsonToStr j)

/-- A list-of-strings field with default `[]`. -/
def jsonToStrList : Option Json → List String
  | none => []
  | some (.jarr l) => l.map jsonToStr
  | some .jnull => []
  | some j => [jsonToStr j]

/-- `ExtractionResult` (place_extractor.py lines 42-58). -/
structure ExtractionResult where
  found : Bool
  places : List PlaceInfo
  notes : Option String
  deriving DecidableEq, Repr

/-- Mapping of one place object to `PlaceInfo` (lines 249-264); a non-dict
entry makes `place_data.get` raise, which `extract` converts to a not-found
result. -/
def buildPlace : Json → Except String PlaceInfo
  | .jobj fs =>
    .ok { confidence :=
            match jget fs "confidence" with
            | some j => jsonToStr j
            | none => "low"
          name := jsonToOptStr (jget fs "name")
          name_en := jsonToOptStr (jget fs "name_en")
          city := jsonToOptStr (jget fs "city")
          country := jsonToOptStr (jget fs "country")
          address := jsonToOptStr (jget fs "address")
          place_type := jsonToStrList (jget fs "place_type")
          highlights := jsonToStrList (jget fs "highlights")
          price_range := jsonToOptStr (jget fs "price_range")
          recommendation := jsonToOptStr (jget fs "recommendation")
          tags := jsonToStrList (jget fs "tags")
          search_keywords := jsonToStrList (jget fs "search_keywords") }
  | _ => .error "AttributeError: place item is not an object"

/-- Iterating `for place_data in places_data` (line 249): lists iterate
their elements; empty strings, dicts and lists iterate nothing; anything
else raises before or at the first `place_data.get`. -/
def placesSeq : Json → Except String (List Json)
  | .jarr l => .ok l
  | .jstr s => if s = "" then .ok [] else .error "AttributeError: string iteration"
  | .jobj l => if l.isEmpty then .ok [] else .error "AttributeError: dict iteration"
  | .jnull => .error "TypeError: NoneType is not iterable"
  | .jbool _ => .error "TypeError: bool is not iterable"
  | .jnum _ _ => .error "TypeError: number is not iterable"

/-- The mapping loop over `places_data` (lines 248-272): iterate the place
entries, map each to a `PlaceInfo` (an exception yields the not-found catch
result), and return `found = len(places) > 0`. -/
def buildPlacesStage (pd : Json) (notes : Option String) : ExtractionResult :=
  match placesSeq pd with
  | .error e => { found := false, places := [], notes := some e }
  | .ok l =>
    match l.mapM buildPlace with
    | .error e => { found := false, places := [], notes := some e }
    | .ok places =>
      { found := decide (0 < places.length)
        places := places
        notes := notes }

/-- The post-parse mapping of `_parse_response` (lines 239-272): a falsy
top-level `found` short-circuits to not-found; `places` (with the legacy
single-object `place` fallback) is mapped to `PlaceInfo`s; the returned
`found` flag is `len(places) > 0`. -/
def buildResultJson : Json → ExtractionResult
  | .jobj fs =>
    if jtruthy ((jget fs "found").getD (.jbool false)) then
      let pd0 := (jget fs "places").getD (.jarr [])
      let pd := if !(jtruthy pd0) then
          match jget fs "place" with
          | some p => Json.jarr [p]
          | none => pd0
        else pd0
      buildPlacesStage pd (jsonToOptStr (jget fs "notes"))
    else { found := false, places := [], notes := jsonToOptStr (jget fs "notes") }
  | _ => { found := false, places := [],
           notes := some "AttributeError: response is not an object" }

/-- Parse attempt plus the single re-anchor/pad retry (lines 212-237),
starting from the repaired span. -/
def parseFromSpan (js : String) : ExtractionResult :=
  match jsonLoads js with
  | .ok d => buildResultJson d
  | .error e1 =>
    match reanchorFound js.data with
    | some l2 =>
      match jsonLoads (padClosingBraces (String.mk l2)) with
      | .ok d => buildResultJson d
      | .error e2 =>
        { found := false, places := [],
          notes := some ("JSON 解析失敗: " ++ e2) }
    | none =>
      { found := false, places := [],
        notes := some ("JSON 解析失敗: " ++ e1) }

/-- The repaired brace span of a response text, when one is located. -/
def repairedSpan (text : String) : Option String :=
  (locateBraceSpan (stripFences text).data).map
    (fun l => repairJson (String.mk l))

/-- `_parse_response` (with `extract`'s exception catch folded in). -/
def parseResponse (text : String) : ExtractionResult :=
  match locateBraceSpan (stripFences text).data with
  | none => { found := false, places := [], notes := some "無法解析回應" }
  | some span => parseFromSpan (repairJson (String.mk span))

/-! ### Theorems -/

theorem evictOldest_of_card_le {s : Finset ℕ} (h : s.card ≤ MAX_PROCESSED_IDS) :
    evictOldest s = s := by
  unfold evictOldest
  simp [Nat.not_lt.mpr h]

/-- Claim C1, counterexample: starting from the empty registry, admitting the
same id twice in immediate succession yields `proceed` and then
`alreadyProcessed` — not `alreadyProcessing` as the claim states, because the
admission block checks the completed set first and the first admission marks
the id in both sets. -/
theorem admission_twice_counterexample :
    (admission regInit 42).1 = AdmissionDecision.proceed ∧
    (admission (admission regInit 42).2 42).1 ≠ AdmissionDecision.alreadyProcessing ∧
    (admission (admission regInit 42).2 42).1 = AdmissionDecision.alreadyProcessed := by
  decide

/-- Claim C1 (amended): for a fresh id, with the completed set below capacity
(so the eviction step does not fire), admitting twice in immediate
succession yields `proceed` then `alreadyProcessed`; after `release`, a
further admission of the same id still yields `alreadyProcessed`. -/
theorem admission_twice_release (st : RegState) (id : ℕ)
    (h1 : id ∉ st.processed) (h2 : id ∉ st.processing)
    (hcard : st.processed.card < MAX_PROCESSED_IDS) :
    (admission st id).1 = AdmissionDecision.proceed ∧
    (admission (admission st id).2 id).1 = AdmissionDecision.alreadyProcessed ∧
    (admission (release (admission st id).2 id) id).1 =
      AdmissionDecision.alreadyProcessed := by
  have hins : (insert id st.processed).card ≤ MAX_PROCESSED_IDS := by
    calc (insert id st.processed).card ≤ st.processed.card + 1 :=
          Finset.card_insert_le _ _
      _ ≤ MAX_PROCESSED_IDS := hcard
  have hev : evictOldest (insert id st.processed) = insert id st.processed :=
    evictOldest_of_card_le hins
  have hstep : admission st id =
      (.proceed,
        { processing := insert id st.processing
          processed := evictOldest (insert id st.processed) }) := by
    unfold admission
    simp [h1, h2]
  refine ⟨by rw [hstep], ?_, ?_⟩
  · rw [hstep]
    unfold admission
    simp [hev]
  · rw [hstep]
    unfold admission release
    simp [hev]

/-- Concrete instance of `admission_twice_release` at the empty registry. -/
theorem admission_twice_release_witness :
    (admission regInit 7).1 = AdmissionDecision.proceed ∧
    (admission (admission regInit 7).2 7).1 = AdmissionDecision.alreadyProcessed ∧
    (admission (release (admission regInit 7).2 7) 7).1 =
      AdmissionDecision.alreadyProcessed :=
  admission_twice_release regInit 7 (by decide) (by decide) (by decide)

/-- Claim C2: below capacity the eviction step is the identity; above capacity
it keeps a subset, removes exactly `_MAX_PROCESSED_IDS // 2` identifiers, all
of them strictly smaller than every retained identifier, and — at the sizes
the handler can actually reach (the set grows by one id per message before the
check) — the resulting size is at most the capacity. -/
theorem evictOldest_spec (s : Finset ℕ) :
    (s.card ≤ MAX_PROCESSED_IDS → evictOldest s = s) ∧
    (MAX_PROCESSED_IDS < s.card →
      evictOldest s ⊆ s ∧
      (evictOldest s).card = s.card - MAX_PROCESSED_IDS / 2 ∧
      (s \ evictOldest s).card = MAX_PROCESSED_IDS / 2 ∧
      (∀ x ∈ s \ evictOldest s, ∀ y ∈ evictOldest s, x < y) ∧
      (s.card ≤ MAX_PROCESSED_IDS + 1 →
        (evictOldest s).card ≤ MAX_PROCESSED_IDS)) := by
  refine ⟨fun h => evictOldest_of_card_le h, fun hgt => ?_⟩
  have hM : MAX_PROCESSED_IDS = 1000 := rfl
  set k := MAX_PROCESSED_IDS / 2 with hkdef
  have hk : k = 500 := rfl
  set l := s.sort (· ≤ ·) with hl
  have hev : evictOldest s = (l.drop k).toFinset := by
    unfold evictOldest
    rw [if_pos hgt]
  have hnodup : l.Nodup := s.sort_nodup _
  have hlen : l.length = s.card := s.length_sort _
  have hdropnd : (l.drop k).Nodup := hnodup.sublist (List.drop_sublist _ _)
  have hsub : evictOldest s ⊆ s := by
    rw [hev]
    intro x hx
    rw [List.mem_toFinset] at hx
    exact (Finset.mem_sort _).mp ((List.drop_sublist _ _).subset hx)
  have hcard : (evictOldest s).card = s.card - k := by
    rw [hev, List.toFinset_card_of_nodup hdropnd, List.length_drop, hlen]
  have hsd : (s \ evictOldest s).card = k := by
    rw [Finset.card_sdiff hsub, hcard]
    omega
  have hlow : ∀ x ∈ s \ evictOldest s, ∀ y ∈ evictOldest s, x < y := by
    intro x hx y hy
    rw [Finset.mem_sdiff, hev, List.mem_toFinset] at hx
    rw [hev, List.mem_toFinset] at hy
    have hxl : x ∈ l := (Finset.mem_sort _).mpr hx.1
    have hxtake : x ∈ l.take k := by
      have hx' : x ∈ l.take k ++ l.drop k := by
        rw [List.take_append_drop]
        exact hxl
      rcases List.mem_append.mp hx' with h | h
      · exact h
      · exact absurd h hx.2
    have hsorted' : List.Pairwise (· ≤ ·) (l.take k ++ l.drop k) := by
      rw [List.take_append_drop]
      exact s.sort_sorted _
    have hle : x ≤ y := (List.pairwise_append.mp hsorted').2.2 x hxtake y hy
    have hnd' : (l.take k ++ l.drop k).Nodup := by
      rw [List.take_append_drop]
      exact hnodup
    have hne : x ≠ y := by
      intro hxy
      exact (List.nodup_append.mp hnd').2.2 hxtake (hxy ▸ hy)
    exact lt_of_le_of_ne hle hne
  refine ⟨hsub, hcard, hsd, hlow, fun hle1 => ?_⟩
  rw [hcard]
  omega

/-- Concrete instances of `evictOldest_spec`: a small set is untouched; a set
of 1001 ids loses exactly 500 and ends below capacity. -/
theorem evictOldest_spec_witness :
    evictOldest (Finset.range 3) = Finset.range 3 ∧
    (Finset.range 1001 \ evictOldest (Finset.range 1001)).card =
      MAX_PROCESSED_IDS / 2 ∧
    (evictOldest (Finset.range 1001)).card ≤ MAX_PROCESSED_IDS :=
  ⟨(evictOldest_spec (Finset.range 3)).1
      (by rw [Finset.card_range]; norm_num [MAX_PROCESSED_IDS]),
   ((evictOldest_spec (Finset.range 1001)).2
      (by rw [Finset.card_range]; norm_num [MAX_PROCESSED_IDS])).2.2.1,
   ((evictOldest_spec (Finset.range 1001)).2
      (by rw [Finset.card_range]; norm_num [MAX_PROCESSED_IDS])).2.2.2.2
      (by rw [Finset.card_range]; norm_num [MAX_PROCESSED_IDS])⟩

theorem matchWsBracket_length :
    ∀ {l : List Char} {b : Char} {rest : List Char},
      matchWsBracket l = some (b, rest) → rest.length < l.length := by
  intro l
  induction l with
  | nil => intro b rest h; simp [matchWsBracket] at h
  | cons c cs ih =>
    intro b rest h
    unfold matchWsBracket at h
    by_cases hws : isPyWs c
    · rw [if_pos hws] at h
      exact Nat.lt_succ_of_lt (ih h)
    · rw [if_neg hws] at h
      by_cases hb : c = '\x7d' ∨ c = ']'
      · rw [if_pos hb] at h
        cases h
        simp
      · rw [if_neg hb] at h
        cases h

theorem stripTrailingCommasF_length :
    ∀ (fuel : ℕ) (l : List Char),
      (stripTrailingCommasF fuel l).length ≤ l.length := by
  intro fuel
  induction fuel with
  | zero => intro l; cases l <;> simp [stripTrailingCommasF]
  | succ n ih =>
    intro l
    cases l with
    | nil => simp [stripTrailingCommasF]
    | cons c rest =>
      by_cases hc : c = ','
      · simp only [stripTrailingCommasF, if_pos hc]
        cases hmb : matchWsBracket rest with
        | none =>
          simpa using Nat.succ_le_succ (ih rest)
        | some p =>
          obtain ⟨b, rest'⟩ := p
          have h1 := matchWsBracket_length hmb
          have h2 := ih rest'
          simp only [List.length_cons]
          omega
      · simp only [stripTrailingCommasF, if_neg hc]
        simpa using Nat.succ_le_succ (ih rest)

theorem stripTrailingCommasF_eq_of_length :
    ∀ (fuel : ℕ) (l : List Char),
      (stripTrailingCommasF fuel l).length = l.length →
      stripTrailingCommasF fuel l = l := by
  intro fuel
  induction fuel with
  | zero => intro l _; cases l <;> rfl
  | succ n ih =>
    intro l hlen
    cases l with
    | nil => rfl
    | cons c rest =>
      by_cases hc : c = ','
      · simp only [stripTrailingCommasF, if_pos hc] at hlen ⊢
        cases hmb : matchWsBracket rest with
        | none =>
          simp only [hmb, List.length_cons] at hlen ⊢
          rw [ih rest (by omega)]
        | some p =>
          obtain ⟨b, rest'⟩ := p
          rw [hmb] at hlen
          have h1 := matchWsBracket_length hmb
          have h2 := stripTrailingCommasF_length n rest'
          simp only [List.length_cons] at hlen
          omega
      · simp only [stripTrailingCommasF, if_neg hc] at hlen ⊢
        simp only [List.length_cons] at hlen
        rw [ih rest (by omega)]

theorem dropToNewline_length :
    ∀ l : List Char, (dropToNewline l).length ≤ l.length := by
  intro l
  induction l with
  | nil => simp [dropToNewline]
  | cons c rest ih =>
    by_cases hc : c = '\n'
    · simp [dropToNewline, if_pos hc]
    · simp only [dropToNewline, if_neg hc, List.length_cons]
      omega

theorem stripLineCommentsF_length :
    ∀ (fuel : ℕ) (l : List Char),
      (stripLineCommentsF fuel l).length ≤ l.length := by
  intro fuel
  induction fuel with
  | zero => intro l; cases l <;> simp [stripLineCommentsF]
  | succ n ih =>
    intro l
    cases l with
    | nil => simp [stripLineCommentsF]
    | cons c rest =>
      by_cases hc : c = '/' && rest.head? = some '/'
      · simp only [stripLineCommentsF, if_pos hc]
        have h1 := dropToNewline_length rest.tail
        have h2 := ih (dropToNewline rest.tail)
        have h3 : rest.tail.length ≤ rest.length := by
          cases rest <;> simp
        simp only [List.length_cons]
        omega
      · simp only [stripLineCommentsF, if_neg hc]
        simpa using Nat.succ_le_succ (ih rest)

theorem stripLineCommentsF_eq_of_length :
    ∀ (fuel : ℕ) (l : List Char),
      (stripLineCommentsF fuel l).length = l.length →
      stripLineCommentsF fuel l = l := by
  intro fuel
  induction fuel with
  | zero => intro l _; cases l <;> rfl
  | succ n ih =>
    intro l hlen
    cases l with
    | nil => rfl
    | cons c rest =>
      by_cases hc : c = '/' && rest.head? = some '/'
      · exfalso
        have hne : rest ≠ [] := by
          intro h
          rw [h] at hc
          simp at hc
        have hrt : rest.tail.length = rest.length - 1 := by
          cases rest with
          | nil => exact absurd rfl hne
          | cons r rs => simp
        have h1 := dropToNewline_length rest.tail
        have h2 := stripLineCommentsF_length n (dropToNewline rest.tail)
        have h0 : rest.length ≠ 0 := by
          cases rest with
          | nil => exact absurd rfl hne
          | cons r rs => simp
        simp only [stripLineCommentsF, if_pos hc, List.length_cons] at hlen
        omega
      · simp only [stripLineCommentsF, if_neg hc, List.length_cons] at hlen ⊢
        rw [ih rest (by omega)]

theorem stripTrailingCommas_length (l : List Char) :
    (stripTrailingCommas l).length ≤ l.length :=
  stripTrailingCommasF_length _ _

theorem stripLineComments_length (l : List Char) :
    (stripLineComments l).length ≤ l.length :=
  stripLineCommentsF_length _ _

theorem repairJson_length_le (s : String) :
    (repairJson s).length ≤ s.length :=
  le_trans (stripLineComments_length _) (stripTrailingCommas_length _)

theorem repairJson_eq_of_length (s : String)
    (h : (repairJson s).length = s.length) : repairJson s = s := by
  have h1 := stripLineComments_length (stripTrailingCommas s.data)
  have h2 := stripTrailingCommas_length s.data
  have hd : (repairJson s).length =
      (stripLineComments (stripTrailingCommas s.data)).length := rfl
  have hs : s.length = s.data.length := rfl
  have e2 : (stripTrailingCommas s.data).length = s.data.length := by omega
  have e1 : (stripLineComments (stripTrailingCommas s.data)).length =
      (stripTrailingCommas s.data).length := by omega
  have r2 : stripTrailingCommas s.data = s.data :=
    stripTrailingCommasF_eq_of_length _ _ e2
  have r1 : stripLineComments (stripTrailingCommas s.data) =
      stripTrailingCommas s.data :=
    stripLineCommentsF_eq_of_length _ _ e1
  show String.mk (stripLineComments (stripTrailingCommas s.data)) = s
  rw [r1, r2]

theorem repairJson_iterate_lemma :
    ∀ (n : ℕ) (s : String), s.length ≤ n →
      repairJson (repairJson^[n] s) = repairJson^[n] s := by
  intro n
  induction n with
  | zero =>
    intro s h
    have hd : s.data = [] := List.length_eq_zero.mp (Nat.le_zero.mp h)
    cases s with
    | mk d =>
      cases hd
      rfl
  | succ n ih =>
    intro s hlen
    by_cases hfix : repairJson s = s
    · rw [Function.iterate_fixed hfix]
      exact hfix
    · have hlt : (repairJson s).length < s.length :=
        lt_of_le_of_ne (repairJson_length_le s)
          (fun he => hfix (repairJson_eq_of_length s he))
      rw [Function.iterate_succ_apply]
      exact ih (repairJson s) (by omega)

/-- Claim C3, counterexample: the repair transformation is not idempotent.
The trailing-comma substitution is a single non-overlapping pass, so the
stacked commas in `",,\x7d"` need one pass each: the first repair yields
`",\x7d"`, the second `"\x7d"`. -/
theorem repairJson_not_idempotent :
    repairJson (repairJson ",,\x7d") ≠ repairJson ",,\x7d" := by decide

/-- Claim C3 (amended): the repair transformation need not be idempotent, but
it never lengthens the text, any application that changes the text strictly
shortens it, and iterating it reaches a fixed point after at most
`length(text)` applications. -/
theorem repairJson_contraction (s : String) :
    (repairJson s).length ≤ s.length ∧
    ((repairJson s).length = s.length → repairJson s = s) ∧
    repairJson (repairJson^[s.length] s) = repairJson^[s.length] s :=
  ⟨repairJson_length_le s, repairJson_eq_of_length s,
   repairJson_iterate_lemma s.length s le_rfl⟩

/-- Concrete instance of `repairJson_contraction`: a text without trailing
commas or comments is left unchanged. -/
theorem repairJson_contraction_witness : repairJson "ab" = "ab" :=
  (repairJson_contraction "ab").2.1 (by decide)

theorem dropLit_head {p : Char} {ps l r : List Char}
    (h : dropLit (p :: ps) l = some r) : l.head? = some p := by
  cases l with
  | nil => simp [dropLit] at h
  | cons c cs =>
    unfold dropLit at h
    by_cases hc : c = p
    · rw [hc]; rfl
    · rw [if_neg hc] at h; cases h

theorem segMatch_some {seg : String} {r : List Char}
    (h : segMatch seg r = true) : ∃ r', dropLit seg.data r = some r' := by
  unfold segMatch at h
  cases hd : dropLit seg.data r with
  | none => rw [hd] at h; exact absurd h (by simp)
  | some r' => exact ⟨r', rfl⟩

theorem segMatch_p_head {r : List Char}
    (h : segMatch "p" r = true) : r.head? = some 'p' := by
  obtain ⟨r', hd⟩ := segMatch_some h
  have hdata : "p".data = 'p' :: [] := rfl
  rw [hdata] at hd
  exact dropLit_head hd

theorem matchReel_head {r : List Char}
    (h : (segMatch "reel" r || segMatch "reels" r || segMatch "tv" r)
      = true) : r.head? = some 'r' ∨ r.head? = some 't' := by
  simp only [Bool.or_eq_true] at h
  rcases h with (hre | hres) | htv
  · obtain ⟨r', hd⟩ := segMatch_some hre
    have hdata : "reel".data = 'r' :: "eel".data := rfl
    rw [hdata] at hd
    exact Or.inl (dropLit_head hd)
  · obtain ⟨r', hd⟩ := segMatch_some hres
    have hdata : "reels".data = 'r' :: "eels".data := rfl
    rw [hdata] at hd
    exact Or.inl (dropLit_head hd)
  · obtain ⟨r', hd⟩ := segMatch_some htv
    have hdata : "tv".data = 't' :: "v".data := rfl
    rw [hdata] at hd
    exact Or.inr (dropLit_head hd)

/-- Claim C9: link classification is a pure deterministic function of the URL
string; the reel/video pattern and the plain single-post pattern are
disjoint; a URL matching none of the patterns is classified `"unknown"`. -/
theorem getUrlType_pure_disjoint (url : String) :
    getUrlType url = getUrlType url ∧
    (matchReelPattern url = true → matchPostPattern url = false) ∧
    (matchPostPattern url = true → matchReelPattern url = false) ∧
    (matchReelPattern url = false ∧ matchPostPattern url = false ∧
      matchSharePattern url = false → getUrlType url = "unknown") := by
  have key : ∀ r : List Char,
      (segMatch "reel" r || segMatch "reels" r || segMatch "tv" r) = true →
      segMatch "p" r = false := by
    intro r hr
    cases hp : segMatch "p" r with
    | false => rfl
    | true =>
      exfalso
      have h1 := matchReel_head hr
      have h2 := segMatch_p_head hp
      rcases h1 with h1 | h1 <;> rw [h1] at h2 <;> simp at h2
  refine ⟨rfl, ?_, ?_, ?_⟩
  · intro hr
    unfold matchReelPattern at hr
    unfold matchPostPattern
    cases hh : afterInstagramHost url with
    | none => rfl
    | some r =>
      rw [hh] at hr
      exact key r hr
  · intro hp
    unfold matchPostPattern at hp
    unfold matchReelPattern
    cases hh : afterInstagramHost url with
    | none => rfl
    | some r =>
      rw [hh] at hp
      have hp' : segMatch "p" r = true := hp
      cases hreel : (segMatch "reel" r || segMatch "reels" r ||
          segMatch "tv" r) with
      | false => exact hreel
      | true =>
        rw [key r hreel] at hp'
        cases hp'
  · rintro ⟨h1, h2, h3⟩
    unfold getUrlType
    rw [h1, h2, h3]
    rfl

/-- Concrete instances of `getUrlType_pure_disjoint`: a reel URL is not a
post URL, and a non-matching text is classified unknown. -/
theorem getUrlType_pure_disjoint_witness :
    matchPostPattern "https://www.instagram.com/reel/abc" = false ∧
    getUrlType "hello" = "unknown" :=
  ⟨(getUrlType_pure_disjoint "https://www.instagram.com/reel/abc").2.1
      (by decide),
   (getUrlType_pure_disjoint "hello").2.2.2 (by decide)⟩

/-- Claim C4, counterexample: an Instagram carousel with 11 non-video nodes
yields 11 downloaded image paths — the carousel branch has no 10-image cap. -/
theorem carousel_unbounded_counterexample :
    (downloadCarouselImages (List.replicate 11 ⟨false, "u"⟩)).length = 11 ∧
    ¬ (downloadCarouselImages
        (List.replicate 11 ⟨false, "u"⟩)).length ≤ 10 := by
  decide

/-- Claim C4 (amended): the Threads image download retains at most 10 paths,
the single-image path yields one, and on every path at most the first 5
downloaded paths are forwarded to analysis; the carousel path, however,
downloads exactly the non-video sidecar nodes with no 10-image cap. -/
theorem image_bounds (ok : String → Bool) (urls paths : List String)
    (nodes : List SidecarNode) (u : String) :
    (downloadThreadImages ok urls).length ≤ 10 ∧
    (downloadSingleImage u).length ≤ 10 ∧
    (imagesToAnalyze paths).length ≤ 5 ∧
    imagesToAnalyze paths = paths.take 5 ∧
    (downloadCarouselImages nodes).length =
      (nodes.filter (fun n => !n.is_video)).length := by
  refine ⟨?_, by simp [downloadSingleImage], ?_, rfl,
    by simp [downloadCarouselImages]⟩
  · have h1 : (downloadThreadImages ok urls).length ≤
        (urls.take 10).length := List.length_filter_le _ _
    have h2 : (urls.take 10).length ≤ 10 := by
      simp only [List.length_take]
      omega
    omega
  · simp only [imagesToAnalyze, List.length_take]
    omega

/-- Claim C5: on a thread with authors `[A, A, B, A]` (`B ≠ A`) the
aggregation retains exactly the 1st, 2nd and 4th items in order; in general
the retained items form an order-preserving subsequence whose every member
carries the first item's username, and only retained items contribute
caption fragments. -/
theorem authorItems_spec (A B : String) (c1 c2 c3 c4 : Option String)
    (hne : B ≠ A) :
    authorItems [⟨A, c1⟩, ⟨A, c2⟩, ⟨B, c3⟩, ⟨A, c4⟩] =
      [⟨A, c1⟩, ⟨A, c2⟩, ⟨A, c4⟩] ∧
    (∀ items : List ThreadItem, List.Sublist (authorItems items) items) ∧
    (∀ items : List ThreadItem, ∀ it ∈ authorItems items,
      it.username = authorUsername items) ∧
    (∀ items : List ThreadItem,
      captionParts items =
        (authorItems items).filterMap (fun it => it.caption)) := by
  refine ⟨?_, fun items => List.filter_sublist _, ?_, fun items => rfl⟩
  · simp [authorItems, authorUsername, hne]
  · intro items it hit
    exact eq_of_beq (List.mem_filter.mp hit).2

/-- Concrete instance of `authorItems_spec` with authors alice/bob. -/
theorem authorItems_spec_witness :
    authorItems [⟨"alice", none⟩, ⟨"alice", none⟩, ⟨"bob", none⟩,
        ⟨"alice", none⟩] =
      [⟨"alice", none⟩, ⟨"alice", none⟩, ⟨"alice", none⟩] :=
  (authorItems_spec "alice" "bob" none none none none (by decide)).1

theorem fillSlots_untouched {α β : Type} (f : α → β) (cands : List α) :
    ∀ (order : List ℕ) (tbl : ℕ → Option β) (j : ℕ), j ∉ order →
      fillSlots f cands order tbl j = tbl j := by
  intro order
  induction order with
  | nil => intro tbl j _; rfl
  | cons i rest ih =>
    intro tbl j hj
    have hji : j ≠ i := fun h => hj (h ▸ List.mem_cons_self i rest)
    have hjr : j ∉ rest := fun h => hj (List.mem_cons_of_mem i h)
    show fillSlots f cands rest _ j = tbl j
    rw [ih _ j hjr]
    simp [hji]

theorem fillSlots_mem {α β : Type} (f : α → β) (cands : List α) :
    ∀ (order : List ℕ) (tbl : ℕ → Option β) (j : ℕ), j ∈ order →
      fillSlots f cands order tbl j = (cands[j]?).map f := by
  intro order
  induction order with
  | nil => intro tbl j h; cases h
  | cons i rest ih =>
    intro tbl j hj
    by_cases hr : j ∈ rest
    · exact ih _ j hr
    · have hij : j = i := by
        rcases List.mem_cons.mp hj with h | h
        · exact h
        · exact absurd h hr
      show fillSlots f cands rest _ j = _
      rw [fillSlots_untouched f cands rest _ j hr]
      simp [hij]

theorem gather_order_preserved {α β : Type} (f : α → β) (cands : List α)
    (order : List ℕ) (hperm : order.Perm (List.range cands.length)) :
    gatherJoin f cands order = cands.map (fun c => some (f c)) := by
  apply List.ext_getElem
  · simp [gatherJoin]
  · intro i h1 h2
    have hlen : i < cands.length := by
      simpa [gatherJoin] using h1
    have hmem : i ∈ order := by
      rw [hperm.mem_iff]
      exact List.mem_range.mpr hlen
    have hfill := fillSlots_mem f cands order (fun _ => none) i hmem
    simp only [gatherJoin, List.getElem_map, List.getElem_range]
    rw [hfill, List.getElem?_eq_getElem hlen]
    rfl

/-- Claim C8: for every candidate sequence and every completion order (any
permutation of the task indices), the joined `(candidate, search-result)`
sequence is in the original candidate order: entry `i` is the pair for
candidate `i`. -/
theorem search_fanin_order {β : Type} (searchFn : Option String → β)
    (places : List PlaceInfo) (order : List ℕ)
    (hperm : order.Perm (List.range places.length)) :
    gatherJoin (fun p => (p, searchFn (searchQuery p))) places order =
      places.map (fun p => some (p, searchFn (searchQuery p))) :=
  gather_order_preserved _ places order hperm

/-- Concrete instance of `search_fanin_order`: three candidates whose
completions arrive in the order 3rd, 1st, 2nd still join in input order. -/
theorem search_fanin_order_witness :
    gatherJoin
        (fun p => (p, searchQuery p))
        [{ name := some "a" }, { name := some "b" }, { name := some "c" }]
        [2, 0, 1] =
      [some ({ name := some "a" }, some "a"),
       some ({ name := some "b" }, some "b"),
       some ({ name := some "c" }, some "c")] := by
  have h := search_fanin_order (fun q => q)
    [{ name := some "a" }, { name := some "b" }, { name := some "c" }]
    [2, 0, 1] (by decide)
  rw [h]
  decide

/-- Claim C6: the thread-node search is a total function of the store — in
particular it terminates on the self-referential `cyclicStore`, where the
recursion runs the full depth budget and stops — and every call past the
depth bound (`depth > 20`) immediately returns no result. -/
theorem findThreadNode_terminates (σ : Store) (a depth : ℕ) :
    (20 < depth → findThreadNode σ a depth = FindRes.notFound) ∧
    findThreadNode cyclicStore 0 0 = FindRes.notFound := by
  constructor
  · intro h
    unfold findThreadNode
    have h0 : 21 - depth = 0 := by omega
    rw [h0]
    rfl
  · decide

/-- Concrete instance of `findThreadNode_terminates`: on the cyclic store a
call at depth 21 is already past the bound. -/
theorem findThreadNode_terminates_witness :
    findThreadNode cyclicStore 5 21 = FindRes.notFound :=
  (findThreadNode_terminates cyclicStore 5 21).1 (by decide)

theorem parseResponse_eq_parseFromSpan {text js : String}
    (hspan : repairedSpan text = some js) :
    parseResponse text = parseFromSpan js := by
  unfold repairedSpan at hspan
  cases hloc : locateBraceSpan (stripFences text).data with
  | none =>
    rw [hloc] at hspan
    simp at hspan
  | some span =>
    rw [hloc] at hspan
    simp only [Option.map_some', Option.some.injEq] at hspan
    unfold parseResponse
    rw [hloc]
    show parseFromSpan (repairJson (String.mk span)) = parseFromSpan js
    rw [hspan]

theorem parseResponse_eq_noSpan {text : String}
    (h : repairedSpan text = none) :
    parseResponse text =
      { found := false, places := [], notes := some "無法解析回應" } := by
  unfold repairedSpan at h
  cases hloc : locateBraceSpan (stripFences text).data with
  | none =>
    unfold parseResponse
    rw [hloc]
  | some span =>
    rw [hloc] at h
    simp at h

/-- Claim C7: when strict parsing of the located, repaired brace span fails,
the parser re-anchors at the first occurrence of `\{\s*"found"`, pads
closing braces, and retries exactly once; a second failure yields a total
(never-raising) not-found result whose notes field carries the parse error,
and so does a failed first attempt with no re-anchor point. -/
theorem parse_retry_behavior (text js : String)
    (hspan : repairedSpan text = some js)
    (e1 : String) (hfail1 : jsonLoads js = .error e1) :
    (reanchorFound js.data = none →
      parseResponse text =
        { found := false, places := [],
          notes := some ("JSON 解析失敗: " ++ e1) }) ∧
    (∀ l2, reanchorFound js.data = some l2 →
      (∀ e2, jsonLoads (padClosingBraces (String.mk l2)) = .error e2 →
        parseResponse text =
          { found := false, places := [],
            notes := some ("JSON 解析失敗: " ++ e2) }) ∧
      (∀ d, jsonLoads (padClosingBraces (String.mk l2)) = .ok d →
        parseResponse text = buildResultJson d)) := by
  rw [parseResponse_eq_parseFromSpan hspan]
  constructor
  · intro hre
    simp only [parseFromSpan, hfail1, hre]
  · intro l2 hre
    constructor
    · intro e2 h2
      simp only [parseFromSpan, hfail1, hre, h2]
    · intro d h2
      simp only [parseFromSpan, hfail1, hre, h2]

/-- Concrete instance of `parse_retry_behavior`: a span whose repaired form
still fails to parse, re-anchors at its own head, balances braces, fails
again, and surfaces the parse error as a note. -/
theorem parse_retry_behavior_witness :
    parseResponse "\x7b \"found\": ,\x7d" =
      { found := false, places := [],
        notes := some "JSON 解析失敗: Expecting value" } := by
  have h := parse_retry_behavior "\x7b \"found\": ,\x7d" "\x7b \"found\": \x7d"
    rfl "Expecting value" rfl
  exact (h.2 ("\x7b \"found\": \x7d" : String).data rfl).1 "Expecting value" rfl

theorem buildPlacesStage_found_iff (pd : Json) (notes : Option String) :
    (buildPlacesStage pd notes).found = true ↔
      (buildPlacesStage pd notes).places ≠ [] := by
  simp only [buildPlacesStage]
  split
  · simp
  · split
    · simp
    · simp [List.length_pos]

theorem buildResultJson_found_iff (j : Json) :
    (buildResultJson j).found = true ↔ (buildResultJson j).places ≠ [] := by
  cases j with
  | jobj fs =>
    simp only [buildResultJson]
    split
    · exact buildPlacesStage_found_iff _ _
    · simp
  | jnull => simp [buildResultJson]
  | jbool b => simp [buildResultJson]
  | jnum m e => simp [buildResultJson]
  | jstr s => simp [buildResultJson]
  | jarr l => simp [buildResultJson]

/-- Claim C10: for every model response text, the returned result satisfies
`found = true` exactly when the mapped places list is non-empty — in
particular a parsed response whose top-level `found` flag is true but whose
place list is empty comes back as not-found, and `found = true` guarantees
at least one `PlaceInfo`. -/
theorem parse_found_iff_places (text : String) :
    (parseResponse text).found = true ↔ (parseResponse text).places ≠ [] := by
  cases hspan : repairedSpan text with
  | none =>
    rw [parseResponse_eq_noSpan hspan]
    simp
  | some js =>
    rw [parseResponse_eq_parseFromSpan hspan]
    unfold parseFromSpan
    cases h1 : jsonLoads js with
    | ok d =>
      dsimp only
      exact buildResultJson_found_iff d
    | error e1 =>
      dsimp only
      cases h2 : reanchorFound js.data with
      | none => simp
      | some l2 =>
        dsimp only
        cases h3 : jsonLoads (padClosingBraces (String.mk l2)) with
        | ok d =>
          dsimp only
          exact buildResultJson_found_iff d
        | error e2 => simp

/-- Concrete instance of `parse_found_iff_places`: a response whose `found`
flag is true but whose `places` array is empty yields a not-found result
with no places. -/
theorem parse_found_iff_places_witness :
    parseResponse "\x7b\"found\": true, \"places\": []\x7d" =
      { found := false, places := [], notes := none } ∧
    ((parseResponse "\x7b\"found\": true, \"places\": []\x7d").found = true ↔
      (parseResponse "\x7b\"found\": true, \"places\": []\x7d").places ≠ []) :=
  ⟨by decide, parse_found_iff_places _⟩

theorem evictOldest_card_eq (s : Finset ℕ)
    (hgt : MAX_PROCESSED_IDS < s.card) :
    (evictOldest s).card = s.card - MAX_PROCESSED_IDS / 2 := by
  unfold evictOldest
  rw [if_pos hgt]
  have hnodup : (s.sort (· ≤ ·)).Nodup := s.sort_nodup _
  have hlen : (s.sort (· ≤ ·)).length = s.card := s.length_sort _
  rw [List.toFinset_card_of_nodup (hnodup.sublist (List.drop_sublist _ _)),
    List.length_drop, hlen]

/-- The handler grows the completed set by at most one id per message and
then runs the eviction step, so the capacity invariant `card ≤ 1000` is
preserved across every admission — the sizes quantified over in the claim
about eviction are exactly the reachable ones. -/
theorem admission_processed_card_le (st : RegState) (id : ℕ)
    (h : st.processed.card ≤ MAX_PROCESSED_IDS) :
    ((admission st id).2).processed.card ≤ MAX_PROCESSED_IDS := by
  by_cases h1 : id ∈ st.processed
  · have hst : (admission st id).2 = st := by
      unfold admission
      rw [if_pos h1]
    rw [hst]
    exact h
  · by_cases h2 : id ∈ st.processing
    · have hst : (admission st id).2 = st := by
        unfold admission
        rw [if_neg h1, if_pos h2]
      rw [hst]
      exact h
    · have hstep : ((admission st id).2).processed =
          evictOldest (insert id st.processed) := by
        unfold admission
        rw [if_neg h1, if_neg h2]
      rw [hstep]
      by_cases h3 : (insert id st.processed).card ≤ MAX_PROCESSED_IDS
      · rw [evictOldest_of_card_le h3]
        exact h3
      · have hgt : MAX_PROCESSED_IDS < (insert id st.processed).card :=
          Nat.lt_of_not_le h3
        have hle : (insert id st.processed).card ≤ MAX_PROCESSED_IDS + 1 :=
          le_trans (Finset.card_insert_le _ _) (by omega)
        rw [evictOldest_card_eq _ hgt]
        have hM : MAX_PROCESSED_IDS = 1000 := rfl
        omega
